import Mathlib

/-!
# CSV Log Comparator — formal model of the core (Loader + Differ)

Shallow embedding of `src/test-version1.py`, restricted to the two core
functions the specification calls Loader and Differ:

* `load_csv_to_dict` (Python lines 72–90): reads a CSV file through
  `csv.DictReader` and builds a dictionary keyed by the value of a
  designated key column, skipping rows whose key value is `None`.
* `compare_dicts` (Python lines 92–125): computes `added`, `removed`
  and `changed` from two such dictionaries.

Modelling decisions:

* A CSV source is abstracted as the list of its already-lexed records
  (`List (List String)`); the first record is the header.  The byte-level
  CSV lexer (delimiter handling, quoting, UTF-8) is outside the model.
* A Python value appearing in a row dictionary is a `PyVal`: the string
  cell values, Python `None` (DictReader's `restval` padding and the
  result of a failed `.get`), and the list of extra fields that
  `DictReader` stores under its `restkey`.
* Python dictionaries are association lists with a last-write-wins
  update (`dictUpd`), mirroring `d[k] = v` insertion-order semantics;
  lookups use `alookup` (first binding wins, and bindings are unique for
  every dictionary actually built by the code).
* `open(file_path)` raising `FileNotFoundError` / `OSError` is modelled
  by giving `load_csv_to_dict` an `Option` source: `none` stands for a
  path that does not exist or cannot be read, and the propagated
  exception is the `Except.error LoadErr.notFound` result.
-/

/-- A Python value stored in a `csv.DictReader` row dictionary: a string
cell, `None` (used as `restval` padding and returned by a failed `.get`),
or the list of extra fields stored under the `restkey`. -/
inductive PyVal where
  | pyNone : PyVal
  | pyStr (s : String) : PyVal
  | pyList (l : List String) : PyVal
deriving DecidableEq, Repr

/-- A `DictReader` row: a Python dict keyed by fieldname (`some f`) or by
the `restkey` `None` (`none`). -/
abbrev Row := List (Option String × PyVal)

/-- A loaded snapshot: Python dict from key-column value to row. -/
abbrev Snapshot := List (String × Row)

/-- Per-key change record produced by the differ:
column ↦ (old value, new value). -/
abbrev Diffs := List (Option String × (PyVal × PyVal))

/-- First-binding lookup in an association list (Python `d[k]` / `d.get(k)`
on a dict, whose bindings are unique). -/
def alookup {α β : Type} [DecidableEq α] : List (α × β) → α → Option β
  | [], _ => none
  | (k, v) :: rest, a => if k = a then some v else alookup rest a

/-- Python `d[k] = v`: replace the existing binding in place, or append. -/
def dictUpd {α β : Type} [DecidableEq α] : List (α × β) → α → β → List (α × β)
  | [], k, v => [(k, v)]
  | (k', v') :: rest, k, v =>
      if k' = k then (k, v) :: rest else (k', v') :: dictUpd rest k v

/-- Python `row.get(col)` with default `None`: absent keys and stored
`None` values are indistinguishable, exactly as in the source. -/
def rowGet (r : Row) (k : Option String) : PyVal :=
  (alookup r k).getD PyVal.pyNone

/-- `csv.DictReader.__next__` row construction (CPython):
`d = dict(zip(fieldnames, row))`; a short record is padded with
`restval = None` on the trailing fieldnames; a long record stores its
extra fields under `restkey = None`. -/
def dictReaderRow (fieldnames record : List String) : Row :=
  let d := (List.zip fieldnames record).foldl
    (fun d fv => dictUpd d (some fv.1) (PyVal.pyStr fv.2)) []
  if record.length < fieldnames.length then
    (fieldnames.drop record.length).foldl
      (fun d f => dictUpd d (some f) PyVal.pyNone) d
  else if fieldnames.length < record.length then
    dictUpd d none (PyVal.pyList (record.drop fieldnames.length))
  else d

/-- One iteration of the loop in `load_csv_to_dict`:
`key = row.get(key_column); if key is not None: data[key] = row`.
`DictReader` skips blank records before building the row dict. -/
def loadStep (header : List String) (key_column : String)
    (data : Snapshot) (record : List String) : Snapshot :=
  if record = [] then data
  else
    match rowGet (dictReaderRow header record) (some key_column) with
    | PyVal.pyStr s => dictUpd data s (dictReaderRow header record)
    | _ => data

/-- Body of `load_csv_to_dict` on an already-opened source: the first
record is the `DictReader` header (an empty file has no header and
yields no rows), every later record is processed by `loadStep`. -/
def loadRecords (records : List (List String)) (key_column : String) : Snapshot :=
  match records with
  | [] => []
  | header :: rows => rows.foldl (loadStep header key_column) []

/-- Error kinds the loader can surface. The code raises only the
exception propagated from `open` (`FileNotFoundError` / `OSError`),
which the specification's taxonomy calls `NotFound`. -/
inductive LoadErr where
  | notFound : LoadErr
deriving DecidableEq, Repr

/-- `load_csv_to_dict(file_path, key_column)` (Python lines 72–90).
`none` models a path that does not exist or cannot be read: `open`
raises and no snapshot is produced. -/
def load_csv_to_dict (source : Option (List (List String)))
    (key_column : String) : Except LoadErr Snapshot :=
  match source with
  | none => Except.error LoadErr.notFound
  | some records => Except.ok (loadRecords records key_column)

/-- Inner loop of `compare_dicts` (Python lines 118–121): for each
column of the old row, compare `old_row[col]` with `new_row.get(col)`
and record differing pairs. Iteration is over the old row's key set. -/
def rowDiffs (old_row new_row : Row) : Diffs :=
  (old_row.map Prod.fst).dedup.filterMap (fun col =>
    let ov := rowGet old_row col
    let nv := rowGet new_row col
    if ov ≠ nv then some (col, (ov, nv)) else none)

/-- Guaranteed-present dict indexing (`old_data[key]` for `key` drawn
from the dict's own key set); the default is never reached there. -/
def snapGet (s : Snapshot) (k : String) : Row :=
  (alookup s k).getD []

/-- Loop of `compare_dicts` over `common = old_keys & new_keys` (Python
lines 114–123): membership in the Python set intersection is modelled by
iterating the (deduplicated) old keys that also occur among the new
keys; a key is kept only when its diff map is non-empty. -/
def changedList (old_data new_data : Snapshot) : List (String × Diffs) :=
  ((old_data.map Prod.fst).dedup.filter
      (fun k => decide (k ∈ new_data.map Prod.fst))).filterMap
    (fun key =>
      let diffs := rowDiffs (snapGet old_data key) (snapGet new_data key)
      if diffs ≠ [] then some (key, diffs) else none)

/-- `compare_dicts(old_data, new_data)` (Python lines 92–125):
`added = new_keys - old_keys`, `removed = old_keys - new_keys`, and for
every common key the per-column diff map, kept only when non-empty. -/
def compare_dicts (old_data new_data : Snapshot) :
    Finset String × Finset String × List (String × Diffs) :=
  let old_keys := (old_data.map Prod.fst).toFinset
  let new_keys := (new_data.map Prod.fst).toFinset
  let added := new_keys \ old_keys
  let removed := old_keys \ new_keys
  (added, removed, changedList old_data new_data)

/-! ## Basic dictionary lemmas -/

theorem alookup_dictUpd {α β : Type} [DecidableEq α]
    (d : List (α × β)) (k : α) (v : β) (a : α) :
    alookup (dictUpd d k v) a = if k = a then some v else alookup d a := by
  induction d with
  | nil => simp [dictUpd, alookup]
  | cons p rest ih =>
    obtain ⟨k', v'⟩ := p
    by_cases hk : k' = k
    · subst hk
      simp only [dictUpd, if_pos rfl]
      by_cases ha : k' = a <;> simp [alookup, ha]
    · simp only [dictUpd, if_neg hk]
      by_cases ha : k' = a
      · subst ha
        have : ¬ k = k' := fun h => hk h.symm
        simp [alookup, this]
      · simp [alookup, ha, ih]

theorem mem_keys_dictUpd {α β : Type} [DecidableEq α]
    (d : List (α × β)) (k : α) (v : β) (a : α) :
    a ∈ (dictUpd d k v).map Prod.fst ↔ a = k ∨ a ∈ d.map Prod.fst := by
  induction d with
  | nil => simp [dictUpd]
  | cons p rest ih =>
    obtain ⟨k', v'⟩ := p
    by_cases hk : k' = k
    · subst hk
      simp [dictUpd]
    · simp only [dictUpd, if_neg hk, List.map_cons, List.mem_cons, ih]
      tauto

theorem nodup_keys_dictUpd {α β : Type} [DecidableEq α]
    (d : List (α × β)) (k : α) (v : β)
    (h : (d.map Prod.fst).Nodup) : ((dictUpd d k v).map Prod.fst).Nodup := by
  induction d with
  | nil => simp [dictUpd]
  | cons p rest ih =>
    obtain ⟨k', v'⟩ := p
    simp only [List.map_cons, List.nodup_cons] at h
    by_cases hk : k' = k
    · subst hk
      simpa [dictUpd] using h
    · simp only [dictUpd, if_neg hk, List.map_cons, List.nodup_cons]
      refine ⟨?_, ih h.2⟩
      rw [mem_keys_dictUpd]
      rintro (rfl | hmem)
      · exact hk rfl
      · exact h.1 hmem

/-- A fold of updates whose keys all differ from `a` leaves lookups at
`a` unchanged. -/
theorem alookup_foldl_dictUpd_ne {α β γ : Type} [DecidableEq α]
    (L : List γ) (key : γ → α) (val : γ → β) (d : List (α × β)) (a : α)
    (h : ∀ x ∈ L, key x ≠ a) :
    alookup (L.foldl (fun d x => dictUpd d (key x) (val x)) d) a = alookup d a := by
  induction L generalizing d with
  | nil => rfl
  | cons x rest ih =>
    simp only [List.foldl_cons]
    rw [ih _ (fun y hy => h y (List.mem_cons_of_mem x hy))]
    rw [alookup_dictUpd]
    exact if_neg (h x (List.mem_cons_self x rest))

/-- A fold of updates that all write the same value `v`: lookup at a key
written by the fold returns `v` (the last write wins). -/
theorem alookup_foldl_dictUpd_const {α β γ : Type} [DecidableEq α]
    (L : List γ) (key : γ → α) (v : β) (d : List (α × β)) (a : α)
    (h : ∃ x ∈ L, key x = a) :
    alookup (L.foldl (fun d x => dictUpd d (key x) v) d) a = some v := by
  induction L generalizing d with
  | nil => simp at h
  | cons x rest ih =>
    simp only [List.foldl_cons]
    by_cases hrest : ∃ y ∈ rest, key y = a
    · exact ih _ hrest
    · obtain ⟨y, hy, hkey⟩ := h
      rcases List.mem_cons.mp hy with rfl | hyr
      · push_neg at hrest
        rw [alookup_foldl_dictUpd_ne rest key (fun _ => v) _ a hrest]
        rw [alookup_dictUpd]
        exact if_pos hkey
      · exact absurd ⟨y, hyr, hkey⟩ hrest

/-! ## Differ lemmas -/

theorem mem_rowDiffs_iff (r1 r2 : Row) (col : Option String) (p : PyVal × PyVal) :
    (col, p) ∈ rowDiffs r1 r2 ↔
      col ∈ r1.map Prod.fst ∧ rowGet r1 col ≠ rowGet r2 col ∧
        p = (rowGet r1 col, rowGet r2 col) := by
  unfold rowDiffs
  rw [List.mem_filterMap]
  constructor
  · rintro ⟨a, ha, hfa⟩
    by_cases hne : rowGet r1 a ≠ rowGet r2 a
    · simp only [if_pos hne, Option.some.injEq] at hfa
      obtain ⟨rfl, rfl⟩ := Prod.mk.injEq .. ▸ hfa
      exact ⟨List.mem_dedup.mp ha, hne, rfl⟩
    · simp [if_neg hne] at hfa
  · rintro ⟨hmem, hne, rfl⟩
    exact ⟨col, List.mem_dedup.mpr hmem, by simp [if_pos hne]⟩

theorem rowDiffs_ne_nil_iff (r1 r2 : Row) :
    rowDiffs r1 r2 ≠ [] ↔
      ∃ col ∈ r1.map Prod.fst, rowGet r1 col ≠ rowGet r2 col := by
  constructor
  · intro h
    obtain ⟨⟨col, p⟩, hp⟩ := List.exists_mem_of_ne_nil _ h
    obtain ⟨hmem, hne, -⟩ := (mem_rowDiffs_iff r1 r2 col p).mp hp
    exact ⟨col, hmem, hne⟩
  · rintro ⟨col, hmem, hne⟩ hnil
    have : (col, (rowGet r1 col, rowGet r2 col)) ∈ rowDiffs r1 r2 :=
      (mem_rowDiffs_iff r1 r2 col _).mpr ⟨hmem, hne, rfl⟩
    rw [hnil] at this
    exact absurd this (List.not_mem_nil _)

theorem mem_keys_changedList_iff (o n : Snapshot) (key : String) :
    key ∈ (changedList o n).map Prod.fst ↔
      key ∈ o.map Prod.fst ∧ key ∈ n.map Prod.fst ∧
        rowDiffs (snapGet o key) (snapGet n key) ≠ [] := by
  unfold changedList
  rw [List.mem_map]
  constructor
  · rintro ⟨⟨k, d⟩, hmem, hfst⟩
    obtain ⟨a, ha, hfa⟩ := List.mem_filterMap.mp hmem
    by_cases hd : rowDiffs (snapGet o a) (snapGet n a) ≠ []
    · simp only [if_pos hd, Option.some.injEq, Prod.mk.injEq] at hfa
      obtain ⟨rfl, rfl⟩ := hfa
      simp only at hfst
      subst hfst
      have := List.mem_filter.mp ha
      exact ⟨List.mem_dedup.mp this.1, of_decide_eq_true this.2, hd⟩
    · simp [if_neg hd] at hfa
  · rintro ⟨ho, hn, hd⟩
    refine ⟨(key, rowDiffs (snapGet o key) (snapGet n key)), ?_, rfl⟩
    refine List.mem_filterMap.mpr ⟨key, ?_, by simp [if_pos hd]⟩
    exact List.mem_filter.mpr ⟨List.mem_dedup.mpr ho, decide_eq_true hn⟩

theorem mem_changedList_snd_ne_nil (o n : Snapshot) (p : String × Diffs)
    (hp : p ∈ changedList o n) : p.2 ≠ [] := by
  obtain ⟨a, ha, hfa⟩ := List.mem_filterMap.mp hp
  by_cases hd : rowDiffs (snapGet o a) (snapGet n a) ≠ []
  · simp only [if_pos hd, Option.some.injEq] at hfa
    subst hfa
    exact hd
  · simp [if_neg hd] at hfa

/-! ## Claim theorems: differ key sets -/

/-- C1: for every pair of Snapshots `old` and `new`, `diff(old, new)`
returns `added` equal to the set difference `keys(new) − keys(old)` and
`removed` equal to `keys(old) − keys(new)`. -/
theorem compare_dicts_added_removed (o n : Snapshot) (k : String) :
    (k ∈ (compare_dicts o n).1 ↔ k ∈ n.map Prod.fst ∧ k ∉ o.map Prod.fst) ∧
    (k ∈ (compare_dicts o n).2.1 ↔ k ∈ o.map Prod.fst ∧ k ∉ n.map Prod.fst) := by
  simp [compare_dicts]

/-- C8: the diff result satisfies the set-algebra laws
`added ∩ removed = ∅` and
`added ∪ removed ∪ (keys(old) ∩ keys(new)) = keys(old) ∪ keys(new)`. -/
theorem compare_dicts_set_algebra (o n : Snapshot) :
    (compare_dicts o n).1 ∩ (compare_dicts o n).2.1 = ∅ ∧
    (compare_dicts o n).1 ∪ (compare_dicts o n).2.1 ∪
        ((o.map Prod.fst).toFinset ∩ (n.map Prod.fst).toFinset) =
      (o.map Prod.fst).toFinset ∪ (n.map Prod.fst).toFinset := by
  constructor
  · ext k
    simp only [compare_dicts, Finset.mem_inter, Finset.mem_sdiff,
      Finset.not_mem_empty, iff_false]
    tauto
  · ext k
    simp only [compare_dicts, Finset.mem_union, Finset.mem_inter,
      Finset.mem_sdiff]
    tauto

/-- C3: every key in `changed` is common to both snapshots and has at
least one differing column (`old_row[col] ≠ new_row.get(col)`); a common
key with zero differing columns does not appear in `changed` at all, and
no key is ever mapped to an empty diff map. -/
theorem compare_dicts_changed_invariant (o n : Snapshot) (key : String) :
    (key ∈ (compare_dicts o n).2.2.map Prod.fst ↔
      key ∈ o.map Prod.fst ∧ key ∈ n.map Prod.fst ∧
        ∃ col ∈ (snapGet o key).map Prod.fst,
          rowGet (snapGet o key) col ≠ rowGet (snapGet n key) col) ∧
    (∀ p ∈ (compare_dicts o n).2.2, p.2 ≠ []) := by
  constructor
  · rw [show (compare_dicts o n).2.2 = changedList o n from rfl,
      mem_keys_changedList_iff, rowDiffs_ne_nil_iff]
  · intro p hp
    exact mem_changedList_snd_ne_nil o n p hp

/-- Old snapshot of the specification's end-to-end scenario (§8.6):
columns `id;status`, rows `1;open` and `2;open`. -/
def oldSnap : Snapshot :=
  loadRecords [["id", "status"], ["1", "open"], ["2", "open"]] "id"

/-- New snapshot of the specification's end-to-end scenario (§8.6):
columns `id;status`, rows `2;closed` and `3;open`. -/
def newSnap : Snapshot :=
  loadRecords [["id", "status"], ["2", "closed"], ["3", "open"]] "id"

/-- Witness for C3: in the end-to-end scenario, key `"2"` (status
`open` → `closed`) is in `changed`. -/
theorem compare_dicts_changed_invariant_witness :
    "2" ∈ (compare_dicts oldSnap newSnap).2.2.map Prod.fst :=
  (compare_dicts_changed_invariant oldSnap newSnap "2").1.mpr (by decide)

/-! ## Lookup support lemmas -/

theorem alookup_eq_none_iff {α β : Type} [DecidableEq α]
    (r : List (α × β)) (a : α) :
    alookup r a = none ↔ a ∉ r.map Prod.fst := by
  induction r with
  | nil => simp [alookup]
  | cons p rest ih =>
    obtain ⟨k, v⟩ := p
    simp only [alookup, List.map_cons, List.mem_cons, not_or]
    by_cases hk : k = a
    · subst hk
      simp
    · rw [if_neg hk, ih]
      have ha : ¬ a = k := fun h => hk h.symm
      simp [ha]

theorem mem_of_alookup_eq_some {α β : Type} [DecidableEq α]
    {r : List (α × β)} {a : α} {v : β}
    (h : alookup r a = some v) : (a, v) ∈ r := by
  induction r with
  | nil => simp [alookup] at h
  | cons p rest ih =>
    obtain ⟨k, w⟩ := p
    simp only [alookup] at h
    by_cases hk : k = a
    · have h' : some w = some v := by rwa [if_pos hk] at h
      obtain rfl : w = v := Option.some.inj h'
      rcases hk with rfl
      exact List.mem_cons_self _ _
    · rw [if_neg hk] at h
      exact List.mem_cons_of_mem _ (ih h)

theorem exists_alookup_eq_some_of_mem_keys {α β : Type} [DecidableEq α]
    {r : List (α × β)} {a : α} (h : a ∈ r.map Prod.fst) :
    ∃ v, alookup r a = some v := by
  cases hv : alookup r a with
  | none => exact absurd ((alookup_eq_none_iff r a).mp hv) (not_not_intro h)
  | some v => exact ⟨v, rfl⟩

/-- Does a Python value hold a string? Rows of a specification-conforming
Snapshot have only string cell values. -/
def isStr : PyVal → Bool
  | PyVal.pyStr _ => true
  | _ => false

/-! ## Claim theorem: per-key column comparison policy -/

/-- C2: for a key present in both snapshots (old row's cells all strings,
as in the spec's data model), the changed entry for that key is exactly
`rowDiffs` of the two rows, and that diff map is driven by the old row's
column set only: an entry exists for `col` iff `col` is an old-row column
whose value differs from `new_row.get(col)` and carries the pair of those
two values; string cells are compared by exact string equality; a column
the new row lacks is recorded as (old value, `None`); columns present
only in the new row are never recorded. -/
theorem compare_dicts_old_columns_drive (o n : Snapshot) (key : String)
    (hko : key ∈ o.map Prod.fst) (hkn : key ∈ n.map Prod.fst)
    (hstr : ∀ p ∈ snapGet o key, isStr p.2 = true) :
    (∀ d, (key, d) ∈ (compare_dicts o n).2.2 →
        d = rowDiffs (snapGet o key) (snapGet n key)) ∧
    (∀ col p, (col, p) ∈ rowDiffs (snapGet o key) (snapGet n key) ↔
        col ∈ (snapGet o key).map Prod.fst ∧
          rowGet (snapGet o key) col ≠ rowGet (snapGet n key) col ∧
          p = (rowGet (snapGet o key) col, rowGet (snapGet n key) col)) ∧
    (∀ col s t, rowGet (snapGet o key) col = PyVal.pyStr s →
        rowGet (snapGet n key) col = PyVal.pyStr t →
        col ∈ (snapGet o key).map Prod.fst →
        ((col, (PyVal.pyStr s, PyVal.pyStr t)) ∈
          rowDiffs (snapGet o key) (snapGet n key) ↔ s ≠ t)) ∧
    (∀ col, col ∈ (snapGet o key).map Prod.fst →
        col ∉ (snapGet n key).map Prod.fst →
        (col, (rowGet (snapGet o key) col, PyVal.pyNone)) ∈
          rowDiffs (snapGet o key) (snapGet n key)) := by
  refine ⟨?_, ?_, ?_, ?_⟩
  · intro d hd
    obtain ⟨a, ha, hfa⟩ := List.mem_filterMap.mp hd
    by_cases hne : rowDiffs (snapGet o a) (snapGet n a) ≠ []
    · simp only [if_pos hne, Option.some.injEq, Prod.mk.injEq] at hfa
      obtain ⟨rfl, rfl⟩ := hfa
      rfl
    · simp [if_neg hne] at hfa
  · intro col p
    exact mem_rowDiffs_iff _ _ col p
  · intro col s t hov hnv hcol
    rw [mem_rowDiffs_iff, hov, hnv]
    constructor
    · rintro ⟨-, hne, -⟩ rfl
      exact hne rfl
    · intro hst
      exact ⟨hcol, by simpa using hst, rfl⟩
  · intro col hcol hncol
    have hnone : rowGet (snapGet n key) col = PyVal.pyNone := by
      unfold rowGet
      rw [(alookup_eq_none_iff _ col).mpr hncol]
      rfl
    obtain ⟨v, hv⟩ := exists_alookup_eq_some_of_mem_keys hcol
    have hvs : isStr v = true := hstr (col, v) (mem_of_alookup_eq_some hv)
    have hov : rowGet (snapGet o key) col = v := by
      unfold rowGet
      rw [hv]
      rfl
    refine (mem_rowDiffs_iff _ _ col _).mpr ⟨hcol, ?_, by rw [hnone]⟩
    rw [hov, hnone]
    cases v with
    | pyNone => simp [isStr] at hvs
    | pyStr s => simp
    | pyList l => simp [isStr] at hvs

/-- Old snapshot of the specification's absent-column scenario (§8.7):
columns `{id, a, b}` for key `"7"`. -/
def oldAbs : Snapshot :=
  loadRecords [["id", "a", "b"], ["7", "x", "y"]] "id"

/-- New snapshot of the specification's absent-column scenario (§8.7):
columns `{id, a}` only for the same key `"7"`. -/
def newAbs : Snapshot :=
  loadRecords [["id", "a"], ["7", "x"]] "id"

/-- Witness for C2: in the absent-column scenario, column `b` (present
only in the old row) is recorded as (`"y"`, `None`). -/
theorem compare_dicts_old_columns_drive_witness :
    (some "b", (PyVal.pyStr "y", PyVal.pyNone)) ∈
      rowDiffs (snapGet oldAbs "7") (snapGet newAbs "7") := by
  have h := (compare_dicts_old_columns_drive oldAbs newAbs "7"
    (by decide) (by decide) (by decide)).2.2.2 (some "b") (by decide) (by decide)
  exact by simpa using h

/-! ## Checked differ: Python indexing as a fallible operation

`compare_dicts` uses unguarded indexing (`old_data[key]`, `new_data[key]`,
`old_row[col]`), which raises `KeyError` in Python when the key is
absent, and guarded lookups (`new_row.get(col)`), which never raise.
The checked variant makes every unguarded indexing fallible. -/

/-- Python `row[col]`: raises (`Except.error`) when the key is absent. -/
def pyIndexRow (r : Row) (k : Option String) : Except Unit PyVal :=
  match alookup r k with
  | some v => Except.ok v
  | none => Except.error ()

/-- Python `data[key]` on a snapshot dict: raises when the key is absent. -/
def pyIndexSnap (s : Snapshot) (k : String) : Except Unit Row :=
  match alookup s k with
  | some r => Except.ok r
  | none => Except.error ()

/-- Checked inner loop of `compare_dicts` over a column list:
`old_row[col]` may raise, `new_row.get(col)` is guarded. -/
def rowDiffsGo (old_row new_row : Row) : List (Option String) → Except Unit Diffs
  | [] => Except.ok []
  | col :: rest =>
    match pyIndexRow old_row col, rowDiffsGo old_row new_row rest with
    | Except.ok ov, Except.ok tail =>
        Except.ok (if ov ≠ rowGet new_row col
          then (col, (ov, rowGet new_row col)) :: tail else tail)
    | Except.error e, _ => Except.error e
    | _, Except.error e => Except.error e

/-- Checked version of `rowDiffs`. -/
def rowDiffsChecked (old_row new_row : Row) : Except Unit Diffs :=
  rowDiffsGo old_row new_row (old_row.map Prod.fst).dedup

/-- Checked loop over the common keys: `old_data[key]` and
`new_data[key]` may raise. -/
def changedGo (old_data new_data : Snapshot) :
    List String → Except Unit (List (String × Diffs))
  | [] => Except.ok []
  | key :: rest =>
    match pyIndexSnap old_data key, pyIndexSnap new_data key with
    | Except.ok old_row, Except.ok new_row =>
      match rowDiffsChecked old_row new_row, changedGo old_data new_data rest with
      | Except.ok diffs, Except.ok tail =>
          Except.ok (if diffs ≠ [] then (key, diffs) :: tail else tail)
      | Except.error e, _ => Except.error e
      | _, Except.error e => Except.error e
    | Except.error e, _ => Except.error e
    | _, Except.error e => Except.error e

/-- `compare_dicts` with every unguarded Python indexing fallible. -/
def compare_dicts_checked (old_data new_data : Snapshot) :
    Except Unit (Finset String × Finset String × List (String × Diffs)) :=
  match changedGo old_data new_data
      ((old_data.map Prod.fst).dedup.filter
        (fun k => decide (k ∈ new_data.map Prod.fst))) with
  | Except.ok changed =>
      Except.ok ((new_data.map Prod.fst).toFinset \ (old_data.map Prod.fst).toFinset,
        (old_data.map Prod.fst).toFinset \ (new_data.map Prod.fst).toFinset,
        changed)
  | Except.error e => Except.error e

theorem rowDiffsGo_eq_ok (old_row new_row : Row) (cols : List (Option String))
    (h : ∀ c ∈ cols, c ∈ old_row.map Prod.fst) :
    rowDiffsGo old_row new_row cols = Except.ok (cols.filterMap (fun col =>
      if rowGet old_row col ≠ rowGet new_row col
        then some (col, (rowGet old_row col, rowGet new_row col)) else none)) := by
  induction cols with
  | nil => rfl
  | cons c rest ih =>
    obtain ⟨v, hv⟩ :=
      exists_alookup_eq_some_of_mem_keys (h c (List.mem_cons_self c rest))
    have hov : rowGet old_row c = v := by
      unfold rowGet
      rw [hv]
      rfl
    have hidx : pyIndexRow old_row c = Except.ok v := by
      simp [pyIndexRow, hv]
    have h' := fun x hx => h x (List.mem_cons_of_mem c hx)
    simp only [rowDiffsGo, hidx, ih h', List.filterMap_cons, hov]
    by_cases hne : v ≠ rowGet new_row c
    · simp [hne]
    · simp [hne]

theorem rowDiffsChecked_eq_ok (old_row new_row : Row) :
    rowDiffsChecked old_row new_row = Except.ok (rowDiffs old_row new_row) := by
  show rowDiffsGo old_row new_row (old_row.map Prod.fst).dedup = _
  rw [rowDiffsGo_eq_ok old_row new_row _ (fun c hc => List.mem_dedup.mp hc)]
  rfl

theorem changedGo_eq_ok (o n : Snapshot) (keys : List String)
    (h : ∀ k ∈ keys, k ∈ o.map Prod.fst ∧ k ∈ n.map Prod.fst) :
    changedGo o n keys = Except.ok (keys.filterMap (fun key =>
      if rowDiffs (snapGet o key) (snapGet n key) ≠ []
        then some (key, rowDiffs (snapGet o key) (snapGet n key)) else none)) := by
  induction keys with
  | nil => rfl
  | cons k rest ih =>
    obtain ⟨ho, hn⟩ := h k (List.mem_cons_self k rest)
    obtain ⟨orow, horow⟩ := exists_alookup_eq_some_of_mem_keys ho
    obtain ⟨nrow, hnrow⟩ := exists_alookup_eq_some_of_mem_keys hn
    have hgo : snapGet o k = orow := by
      unfold snapGet
      rw [horow]
      rfl
    have hgn : snapGet n k = nrow := by
      unfold snapGet
      rw [hnrow]
      rfl
    have hio : pyIndexSnap o k = Except.ok orow := by simp [pyIndexSnap, horow]
    have hin : pyIndexSnap n k = Except.ok nrow := by simp [pyIndexSnap, hnrow]
    have h' := fun x hx => h x (List.mem_cons_of_mem k hx)
    simp only [changedGo, hio, hin, rowDiffsChecked_eq_ok, ih h',
      List.filterMap_cons, hgo, hgn]
    by_cases hne : rowDiffs orow nrow ≠ []
    · simp [hne]
    · simp [hne]

/-- C9: `diff` is total — with every unguarded Python indexing modelled
as fallible, `compare_dicts` never raises on any pair of snapshots
(rows with differing or missing column sets included), because its only
per-column lookup into the new row is the guarded `new_row.get(col)`. -/
theorem compare_dicts_never_raises (o n : Snapshot) :
    compare_dicts_checked o n = Except.ok (compare_dicts o n) := by
  have hmem : ∀ k ∈ (o.map Prod.fst).dedup.filter
      (fun k => decide (k ∈ n.map Prod.fst)),
      k ∈ o.map Prod.fst ∧ k ∈ n.map Prod.fst := by
    intro k hk
    have := List.mem_filter.mp hk
    exact ⟨List.mem_dedup.mp this.1, of_decide_eq_true this.2⟩
  show (match changedGo o n _ with
    | Except.ok changed => Except.ok (_, _, changed)
    | Except.error e => Except.error e) = _
  rw [changedGo_eq_ok o n _ hmem]
  rfl

/-! ## Loader lemmas -/

theorem alookup_zipFold_not_mem (header r : List String) (d : Row) (kc : String)
    (h : kc ∉ header) :
    alookup ((List.zip header r).foldl
      (fun d fv => dictUpd d (some fv.1) (PyVal.pyStr fv.2)) d) (some kc) =
      alookup d (some kc) :=
  alookup_foldl_dictUpd_ne (List.zip header r) (fun fv => some fv.1)
    (fun fv => PyVal.pyStr fv.2) d (some kc)
    (fun _ hfv heq => h (Option.some.inj heq ▸ (List.of_mem_zip hfv).1))

theorem alookup_padFold_not_mem (L : List String) (d : Row) (kc : String)
    (h : kc ∉ L) :
    alookup (L.foldl (fun d f => dictUpd d (some f) PyVal.pyNone) d) (some kc) =
      alookup d (some kc) :=
  alookup_foldl_dictUpd_ne L (fun f => some f) (fun _ => PyVal.pyNone) d (some kc)
    (fun _ hf heq => h (Option.some.inj heq ▸ hf))

theorem alookup_padFold_mem (L : List String) (d : Row) (f0 : String)
    (h : f0 ∈ L) :
    alookup (L.foldl (fun d f => dictUpd d (some f) PyVal.pyNone) d) (some f0) =
      some PyVal.pyNone :=
  alookup_foldl_dictUpd_const L (fun f => some f) PyVal.pyNone d (some f0) ⟨f0, h, rfl⟩

/-- A fieldname absent from the header is absent from every row dict. -/
theorem alookup_dictReaderRow_not_mem (header r : List String) (kc : String)
    (h : kc ∉ header) :
    alookup (dictReaderRow header r) (some kc) = none := by
  simp only [dictReaderRow]
  by_cases h1 : r.length < header.length
  · rw [if_pos h1,
      alookup_padFold_not_mem _ _ kc (fun hm => h (List.mem_of_mem_drop hm)),
      alookup_zipFold_not_mem header r [] kc h]
    rfl
  · rw [if_neg h1]
    by_cases h2 : header.length < r.length
    · rw [if_pos h2, alookup_dictUpd]
      rw [if_neg (by simp)]
      rw [alookup_zipFold_not_mem header r [] kc h]
      rfl
    · rw [if_neg h2, alookup_zipFold_not_mem header r [] kc h]
      rfl

/-- A blank record has no key value: every fieldname reads as `None`. -/
theorem keyval_nil (header : List String) (kc : String) :
    rowGet (dictReaderRow header []) (some kc) = PyVal.pyNone := by
  unfold rowGet
  simp only [dictReaderRow, List.zip_nil_right, List.foldl_nil, List.length_nil,
    List.drop_zero]
  by_cases h1 : 0 < header.length
  · rw [if_pos h1]
    by_cases hm : kc ∈ header
    · rw [alookup_padFold_mem header [] kc hm]
      rfl
    · rw [alookup_padFold_not_mem header [] kc hm]
      rfl
  · rw [if_neg h1, if_neg (Nat.not_lt_zero _)]
    rfl

/-- A record whose key value is not a string is skipped by the loader. -/
theorem loadStep_skip (header : List String) (kc : String) (data : Snapshot)
    (r : List String)
    (h : ∀ t, rowGet (dictReaderRow header r) (some kc) ≠ PyVal.pyStr t) :
    loadStep header kc data r = data := by
  unfold loadStep
  split
  · rfl
  · cases hv : rowGet (dictReaderRow header r) (some kc) with
    | pyNone => rfl
    | pyStr t => exact absurd hv (h t)
    | pyList l => rfl

/-- A record whose key value is the string `s` is inserted under `s`. -/
theorem loadStep_insert (header : List String) (kc s : String) (data : Snapshot)
    (r : List String) (hr : r ≠ [])
    (h : rowGet (dictReaderRow header r) (some kc) = PyVal.pyStr s) :
    loadStep header kc data r = dictUpd data s (dictReaderRow header r) := by
  unfold loadStep
  rw [if_neg hr, h]

theorem mem_keys_loadStep (header : List String) (kc : String) (data : Snapshot)
    (r : List String) (s : String) :
    s ∈ (loadStep header kc data r).map Prod.fst ↔
      s ∈ data.map Prod.fst ∨
        rowGet (dictReaderRow header r) (some kc) = PyVal.pyStr s := by
  cases hv : rowGet (dictReaderRow header r) (some kc) with
  | pyNone =>
    rw [loadStep_skip header kc data r (fun t ht => by rw [hv] at ht; cases ht)]
    simp [hv]
  | pyStr t =>
    by_cases hr : r = []
    · rw [hr, keyval_nil] at hv
      cases hv
    · rw [loadStep_insert header kc t data r hr hv, mem_keys_dictUpd]
      constructor
      · rintro (rfl | h)
        · exact Or.inr rfl
        · exact Or.inl h
      · rintro (h | heq)
        · exact Or.inr h
        · exact Or.inl (PyVal.pyStr.inj heq).symm
  | pyList l =>
    rw [loadStep_skip header kc data r (fun t ht => by rw [hv] at ht; cases ht)]
    simp [hv]

theorem mem_keys_foldl_loadStep (header : List String) (kc : String)
    (rows : List (List String)) (data : Snapshot) (s : String) :
    s ∈ ((rows.foldl (loadStep header kc) data).map Prod.fst) ↔
      s ∈ data.map Prod.fst ∨
        ∃ r ∈ rows, rowGet (dictReaderRow header r) (some kc) = PyVal.pyStr s := by
  induction rows generalizing data with
  | nil => simp
  | cons r rest ih =>
    rw [List.foldl_cons, ih, mem_keys_loadStep]
    constructor
    · rintro ((h | h) | ⟨x, hx, hk⟩)
      · exact Or.inl h
      · exact Or.inr ⟨r, List.mem_cons_self r rest, h⟩
      · exact Or.inr ⟨x, List.mem_cons_of_mem r hx, hk⟩
    · rintro (h | ⟨x, hx, hk⟩)
      · exact Or.inl (Or.inl h)
      · rcases List.mem_cons.mp hx with rfl | hx'
        · exact Or.inl (Or.inr hk)
        · exact Or.inr ⟨x, hx', hk⟩

theorem nodup_keys_loadStep (header : List String) (kc : String) (data : Snapshot)
    (r : List String) (h : (data.map Prod.fst).Nodup) :
    ((loadStep header kc data r).map Prod.fst).Nodup := by
  unfold loadStep
  split
  · exact h
  · split
    · exact nodup_keys_dictUpd _ _ _ h
    · exact h

theorem nodup_keys_foldl_loadStep (header : List String) (kc : String)
    (rows : List (List String)) (data : Snapshot)
    (h : (data.map Prod.fst).Nodup) :
    (((rows.foldl (loadStep header kc) data)).map Prod.fst).Nodup := by
  induction rows generalizing data with
  | nil => exact h
  | cons r rest ih => exact ih _ (nodup_keys_loadStep header kc data r h)

theorem alookup_foldl_loadStep_ne (header : List String) (kc s : String)
    (rows : List (List String)) (data : Snapshot)
    (h : ∀ r ∈ rows, rowGet (dictReaderRow header r) (some kc) ≠ PyVal.pyStr s) :
    alookup (rows.foldl (loadStep header kc) data) s = alookup data s := by
  induction rows generalizing data with
  | nil => rfl
  | cons r rest ih =>
    rw [List.foldl_cons, ih _ (fun x hx => h x (List.mem_cons_of_mem r hx))]
    cases hv : rowGet (dictReaderRow header r) (some kc) with
    | pyNone => rw [loadStep_skip header kc data r (fun t ht => by rw [hv] at ht; cases ht)]
    | pyStr t =>
      by_cases hr : r = []
      · rw [hr, keyval_nil] at hv
        cases hv
      · rw [loadStep_insert header kc t data r hr hv, alookup_dictUpd]
        have hts : t ≠ s := fun he => h r (List.mem_cons_self r rest) (he ▸ hv)
        rw [if_neg hts]
    | pyList l => rw [loadStep_skip header kc data r (fun t ht => by rw [hv] at ht; cases ht)]

/-- A file all of whose records lack a string key value loads nothing. -/
theorem foldl_loadStep_all_skip (header : List String) (kc : String)
    (rows : List (List String)) (data : Snapshot)
    (h : ∀ r ∈ rows, ∀ t, rowGet (dictReaderRow header r) (some kc) ≠ PyVal.pyStr t) :
    rows.foldl (loadStep header kc) data = data := by
  induction rows generalizing data with
  | nil => rfl
  | cons r rest ih =>
    rw [List.foldl_cons, loadStep_skip header kc data r (h r (List.mem_cons_self r rest))]
    exact ih _ (fun x hx => h x (List.mem_cons_of_mem r hx))

/-! ## Claim theorems: loader -/

/-- C7: `load` fails with the `NotFound` error kind when the input path
does not exist or is not readable (the exception `open` raises), yielding
no snapshot, with no retry. -/
theorem load_not_found (kc : String) :
    load_csv_to_dict none kc = Except.error LoadErr.notFound := rfl

/-- C4 counterexample: a record whose key-column value is the *empty
string* is **not** skipped — it is inserted under key `""` and counted
in the snapshot's size (the claim says its size would exclude it). -/
theorem load_empty_key_not_skipped :
    "" ∈ (loadRecords [["id", "a"], ["", "x"]] "id").map Prod.fst ∧
    (loadRecords [["id", "a"], ["", "x"]] "id").length = 1 := by
  decide

/-- C4 amended: `load` skips exactly the records whose key-column value
is *absent* (Python `None`): a key is in the snapshot iff some record
carries it as the string value of the key column — and that includes the
empty string, so records with an empty key value are inserted, not
skipped. -/
theorem load_skips_absent_key_only (header : List String)
    (rows : List (List String)) (kc s : String) :
    s ∈ (loadRecords (header :: rows) kc).map Prod.fst ↔
      ∃ r ∈ rows, rowGet (dictReaderRow header r) (some kc) = PyVal.pyStr s := by
  show s ∈ ((rows.foldl (loadStep header kc) []).map Prod.fst) ↔ _
  rw [mem_keys_foldl_loadStep]
  simp

/-- C5 counterexample: `load` does not fail on a missing header, on a
short record, or on a key column absent from the header — all three
inputs load successfully (the claim says each fails with
`MalformedInput`). -/
theorem load_lenient_counterexample :
    load_csv_to_dict (some ([] : List (List String))) "id" = Except.ok [] ∧
    load_csv_to_dict (some [["id", "a"], ["1"]]) "id" =
      Except.ok [("1", [(some "id", PyVal.pyStr "1"), (some "a", PyVal.pyNone)])] ∧
    load_csv_to_dict (some [["a"], ["x"]]) "id" = Except.ok [] :=
  ⟨rfl, rfl, rfl⟩

/-- C5 amended: `load` never fails with a `MalformedInput` kind. On an
existing source it always returns a snapshot: a missing header yields
the empty snapshot, a key column absent from the header yields the
empty snapshot (every record is skipped), and records with a field count
different from the header's are handled leniently. -/
theorem load_never_malformed (recs : List (List String)) (header : List String)
    (rows : List (List String)) (kc : String) (hkc : kc ∉ header) :
    (∃ snap, load_csv_to_dict (some recs) kc = Except.ok snap) ∧
    load_csv_to_dict (some []) kc = Except.ok [] ∧
    load_csv_to_dict (some (header :: rows)) kc = Except.ok [] := by
  refine ⟨⟨loadRecords recs kc, rfl⟩, rfl, ?_⟩
  show Except.ok (rows.foldl (loadStep header kc) []) = Except.ok ([] : Snapshot)
  rw [foldl_loadStep_all_skip header kc rows [] ?_]
  intro r hr t ht
  unfold rowGet at ht
  rw [alookup_dictReaderRow_not_mem header r kc hkc] at ht
  cases ht

/-- Witness for C5 (amended): concrete lenient loads. -/
theorem load_never_malformed_witness :
    (∃ snap, load_csv_to_dict (some [["id", "a"], ["1"]]) "id" = Except.ok snap) ∧
    load_csv_to_dict (some []) "id" = Except.ok [] ∧
    load_csv_to_dict (some [["a"], ["x"]]) "id" = Except.ok [] :=
  load_never_malformed [["id", "a"], ["1"]] ["a"] [["x"]] "id" (by decide)

/-- C6: duplicate keys resolve by last-write-wins — with a collision on
key `s` and no later record carrying `s`, the snapshot's entry for `s`
is the row built from the last such record, and snapshot keys stay
unique. -/
theorem load_last_write_wins (header : List String) (pre post : List (List String))
    (r0 r : List String) (kc s : String)
    (h0 : r0 ∈ pre)
    (hk0 : rowGet (dictReaderRow header r0) (some kc) = PyVal.pyStr s)
    (hk : rowGet (dictReaderRow header r) (some kc) = PyVal.pyStr s)
    (hpost : ∀ q ∈ post, rowGet (dictReaderRow header q) (some kc) ≠ PyVal.pyStr s) :
    alookup (loadRecords (header :: (pre ++ r :: post)) kc) s =
      some (dictReaderRow header r) ∧
    ((loadRecords (header :: (pre ++ r :: post)) kc).map Prod.fst).Nodup := by
  constructor
  · show alookup ((pre ++ r :: post).foldl (loadStep header kc) []) s = _
    rw [List.foldl_append, List.foldl_cons,
      alookup_foldl_loadStep_ne header kc s post _ hpost]
    have hr : r ≠ [] := by
      intro he
      rw [he, keyval_nil] at hk
      cases hk
    rw [loadStep_insert header kc s _ r hr hk, alookup_dictUpd, if_pos rfl]
  · exact nodup_keys_foldl_loadStep header kc _ [] List.nodup_nil

/-- Witness for C6: the spec's §8.5 scenario, two records with key `"7"`;
the entry for `"7"` is the second record's row. -/
theorem load_last_write_wins_witness :
    alookup (loadRecords [["id", "v"], ["7", "a"], ["7", "b"]] "id") "7" =
      some (dictReaderRow ["id", "v"] ["7", "b"]) ∧
    ((loadRecords [["id", "v"], ["7", "a"], ["7", "b"]] "id").map Prod.fst).Nodup :=
  load_last_write_wins ["id", "v"] [["7", "a"]] [] ["7", "a"] ["7", "b"] "id" "7"
    (by decide) (by decide) (by decide) (by decide)

/-- C10: a record with fewer fields than the header does not abort the
load; its missing trailing columns read as the absent value (`None`),
and when the key column is among the missing fields the record is
skipped while the rest of the file still loads. -/
theorem load_short_record (header : List String) (pre post : List (List String))
    (r : List String) (kc : String) (hshort : r.length < header.length) :
    (∃ snap, load_csv_to_dict (some (header :: (pre ++ r :: post))) kc =
      Except.ok snap) ∧
    (∀ f ∈ header.drop r.length,
      rowGet (dictReaderRow header r) (some f) = PyVal.pyNone) ∧
    (kc ∈ header.drop r.length →
      loadRecords (header :: (pre ++ r :: post)) kc =
        loadRecords (header :: (pre ++ post)) kc) := by
  have hpad : ∀ f ∈ header.drop r.length,
      rowGet (dictReaderRow header r) (some f) = PyVal.pyNone := by
    intro f hf
    unfold rowGet
    have hlk : alookup (dictReaderRow header r) (some f) = some PyVal.pyNone := by
      simp only [dictReaderRow]
      rw [if_pos hshort]
      exact alookup_padFold_mem _ _ f hf
    rw [hlk]
    rfl
  refine ⟨⟨loadRecords (header :: (pre ++ r :: post)) kc, rfl⟩, hpad, ?_⟩
  intro hkc
  show (pre ++ r :: post).foldl (loadStep header kc) [] =
    (pre ++ post).foldl (loadStep header kc) []
  rw [List.foldl_append, List.foldl_cons, List.foldl_append]
  congr 1
  exact loadStep_skip header kc _ r (fun t ht => by rw [hpad kc hkc] at ht; cases ht)

/-- Witness for C10: key column `id` is among the missing trailing
fields of the short record `["x"]`, which is skipped; the records around
it still load. -/
theorem load_short_record_witness :
    (∃ snap, load_csv_to_dict
      (some [["a", "id"], ["p", "1"], ["x"], ["q", "2"]]) "id" = Except.ok snap) ∧
    (∀ f ∈ (["a", "id"] : List String).drop 1,
      rowGet (dictReaderRow ["a", "id"] ["x"]) (some f) = PyVal.pyNone) ∧
    ("id" ∈ (["a", "id"] : List String).drop 1 →
      loadRecords [["a", "id"], ["p", "1"], ["x"], ["q", "2"]] "id" =
        loadRecords [["a", "id"], ["p", "1"], ["q", "2"]] "id") :=
  load_short_record ["a", "id"] [["p", "1"]] [["q", "2"]] ["x"] "id" (by decide)
